import Mathlib

/-!
Verification of the computational core of the banana-slides repository.

The repository's testable logic lives in four places:

* `backend/services/ai_service.py` — `AIService.flatten_outline`,
  `AIService.generate_outline_text`,
  `AIService.extract_image_urls_from_markdown`;
* `backend/services/ai_providers/image/lazyllm_provider.py` — the
  resolution resolver inlined in `LazyLLMImageProvider.generate_image`;
* `backend/utils/image_utils.py` — `check_image_resolution`;
* `v0_demo/lazyllm_genai.py` — the fixed lookup table in `gen_image`.

Python values flowing through the outline pipeline are JSON-decoded
structures: strings, lists and (insertion-ordered) dicts.  They are
embedded as the inductive type `PVal`; dicts become ordered association
lists, and the Python dict operations used by the source (`in`,
subscripting, `.copy()` + item assignment) are modelled by executable
functions on those lists.  Fallible Python code (code that can raise)
returns `Except String`.
-/

/-- Embedding of the JSON-like Python values handled by the outline
pipeline: strings, lists, insertion-ordered dicts with string keys, and
the JSON scalars — numbers, booleans, null.  The pipeline only ever
type-dispatches on scalars (membership tests, subscripting, `.copy()`),
never computes with them, so a single integer constructor stands for all
JSON numbers. -/
inductive PVal where
  | str : String → PVal
  | list : List PVal → PVal
  | dict : List (String × PVal) → PVal
  | int : Int → PVal
  | bool : Bool → PVal
  | null : PVal

/-- Does the association list representing a Python dict carry key `k`?
Models `k in d` for a dict `d`. -/
def dictHasKey (d : List (String × PVal)) (k : String) : Bool :=
  d.any (fun p => p.1 == k)

/-- Value stored under key `k`, if any (first occurrence; Python dicts
have unique keys, which every input built in this file respects). -/
def dictFind (d : List (String × PVal)) (k : String) : Option PVal :=
  (d.find? (fun p => p.1 == k)).map (fun p => p.2)

/-- Models Python `d[k] = v` on a dict: overwrite in place when the key
exists (keeping its position, as CPython does), otherwise append the new
binding at the end (insertion order). -/
def dictSet (d : List (String × PVal)) (k : String) (v : PVal) : List (String × PVal) :=
  if dictHasKey d k then d.map (fun p => if p.1 == k then (k, v) else p)
  else d ++ [(k, v)]

/-- True when the pattern list is a prefix of the second list.  Models
Python `str.startswith` over explicit character lists. -/
def listStartsWith : List Char → List Char → Bool
  | [], _ => true
  | _ :: _, [] => false
  | p :: ps, c :: cs => p == c && listStartsWith ps cs

/-- True when the pattern occurs as a contiguous run of the second list.
Models Python substring containment `pat in s`. -/
def hasSubChars (pat : List Char) : List Char → Bool
  | [] => pat.isEmpty
  | c :: cs => listStartsWith pat (c :: cs) || hasSubChars pat cs

/-- Pure value of the Python membership test `k in item` on the
iterable value shapes: key lookup on a dict, element equality on a list
(only string elements can equal the string `k`), substring containment
on a string.  On the non-iterable scalars the Python test raises — that
path is carried by `pyInCk`; this pure variant returns `false` there and
is used only in specification-side definitions. -/
def pyIn (k : String) : PVal → Bool
  | .dict d => dictHasKey d k
  | .list l => l.any (fun v => match v with | .str s => s == k | _ => false)
  | .str s => hasSubChars k.data s.data
  | _ => false

/-- The embedding of the Python membership test `k in item`: on a dict,
list, or string it returns the pure test value; on a number, boolean, or
null it raises `TypeError: argument of type ... is not iterable`, as
CPython does (the per-type message text is collapsed into one string). -/
def pyInCk (k : String) (v : PVal) : Except String Bool :=
  match v with
  | .int _ => .error "TypeError: argument is not iterable"
  | .bool _ => .error "TypeError: argument is not iterable"
  | .null => .error "TypeError: argument is not iterable"
  | _ => .ok (pyIn k v)

/-- Models the Python subscript `item[k]` with a string key: succeeds
only on a dict carrying the key; a missing key raises `KeyError` and a
non-dict raises `TypeError`. -/
def subscript : PVal → String → Except String PVal
  | .dict d, k =>
    match dictFind d k with
    | some v => .ok v
    | none => .error "KeyError"
  | _, _ => .error "TypeError: value is not subscriptable by a string key"

/-- Models Python iteration `for page in v`: a list yields its
elements, a string yields its characters as one-character strings, a
dict yields its keys, and a non-iterable scalar raises `TypeError`. -/
def pyIterCk : PVal → Except String (List PVal)
  | .list l => .ok l
  | .str s => .ok (s.data.map (fun c => PVal.str (String.singleton c)))
  | .dict d => .ok (d.map (fun p => PVal.str p.1))
  | _ => .error "TypeError: value is not iterable"

/-- Pure value of the part guard on values where the membership test
does not raise: the item is part-shaped exactly when both `"part"` and
`"pages"` pass the Python membership test.  Used in specification-side
definitions; the source's guard itself is `isPartItemCk`. -/
def isPartItem (item : PVal) : Bool :=
  pyIn "part" item && pyIn "pages" item

/-- Embedding of the guard `"part" in item and "pages" in item`
(`ai_service.py:139` and `ai_service.py:204`) with Python's
short-circuit evaluation: the first membership test may raise (on a
non-iterable scalar), and the second runs only when the first holds. -/
def isPartItemCk (item : PVal) : Except String Bool := do
  let h1 ← pyInCk "part" item
  if h1 then pyInCk "pages" item else pure false

/-- Is the value a non-iterable JSON scalar (number, boolean, null)?
On these the Python membership test raises, so `flatten_outline` and
`generate_outline_text` fail fast. -/
def isScalar : PVal → Bool
  | .int _ => true
  | .bool _ => true
  | .null => true
  | _ => false

/-- Body of the inner loop of `flatten_outline` (`ai_service.py:142-143`):
`page_with_part = page.copy(); page_with_part["part"] = item["part"]`.
Succeeds only on a dict page; a non-dict page raises (`.copy()` is
missing on strings, and item assignment fails on lists). -/
def copyAnnotate (partVal : PVal) (page : PVal) : Except String PVal :=
  match page with
  | .dict d => .ok (PVal.dict (dictSet d "part" partVal))
  | _ => .error "TypeError: page record does not support copy and item assignment"

/-- Inner loop of the part branch of `flatten_outline`
(`ai_service.py:141-144`): copy-and-annotate each page in order; the
first raising page aborts the whole call, as a Python exception would. -/
def annotatePages (partVal : PVal) : List PVal → Except String (List PVal)
  | [] => .ok []
  | page :: rest => do
    let p ← copyAnnotate partVal page
    let tail ← annotatePages partVal rest
    pure (p :: tail)

/-- Embedding of `AIService.flatten_outline` (`ai_service.py:132-148`).
An item carrying both `"part"` and `"pages"` is expanded: each of its
pages is shallow-copied and annotated with the parent's `"part"` value;
any other item is appended unmodified.  A raised Python exception is an
`Except.error`. -/
def flatten_outline : List PVal → Except String (List PVal)
  | [] => .ok []
  | item :: rest =>
    match isPartItemCk item with
    | .error e => .error e
    | .ok true => do
      let pagesVal ← subscript item "pages"
      let partVal ← subscript item "part"
      let pages ← pyIterCk pagesVal
      let expanded ← annotatePages partVal pages
      let tail ← flatten_outline rest
      pure (expanded ++ tail)
    | .ok false => do
      let tail ← flatten_outline rest
      pure (item :: tail)

/-- Is the value a dict?  Pages must be dicts for the copy-and-annotate
step of `flatten_outline` to succeed. -/
def isDictVal : PVal → Bool
  | .dict _ => true
  | _ => false

/-- Pages of a part-shaped item (the value under `"pages"`, when it is a
list); used to state the specification of `flatten_outline`. -/
def pagesOf : PVal → List PVal
  | .dict d =>
    match dictFind d "pages" with
    | some (.list ps) => ps
    | _ => []
  | _ => []

/-- Part name of a part-shaped item (the value under `"part"`); used to
state the specification of `flatten_outline`. -/
def partValOf : PVal → PVal
  | .dict d => (dictFind d "part").getD (PVal.str "")
  | _ => PVal.str ""

/-- Pure annotation of a page with its parent part name: the successful
outcome of `copyAnnotate`. -/
def annotatePage (partVal : PVal) (page : PVal) : PVal :=
  match page with
  | .dict d => PVal.dict (dictSet d "part" partVal)
  | _ => page

/-- Expected contribution of a single outline item to the flat output:
a part contributes its annotated pages, anything else contributes
itself. -/
def expandItem (item : PVal) : List PVal :=
  if isPartItem item then (pagesOf item).map (annotatePage (partValOf item))
  else [item]

/-- Number of flat pages an item is expected to contribute. -/
def itemSize (item : PVal) : Nat :=
  if isPartItem item then (pagesOf item).length else 1

/-- Specified flat output of `flatten_outline`: the contributions of the
items, concatenated in input order.  Contiguity of a part's pages, their
intra-part order, and the interleaving of parts and direct pages in
input order are all immediate from this shape. -/
def expandAll : List PVal → List PVal
  | [] => []
  | item :: rest => expandItem item ++ expandAll rest

/-- Specified output length of `flatten_outline`: one per direct page
plus the page count of each part. -/
def sumSizes : List PVal → Nat
  | [] => 0
  | item :: rest => itemSize item + sumSizes rest

/-- Well-formedness of a single outline item, decided executably: if the
item is part-shaped it must be a dict whose `"pages"` value is a list of
dicts; other items are unconstrained (the source appends them as they
are). -/
def wfItem : PVal → Bool
  | .dict d =>
    if isPartItem (.dict d) then
      match dictFind d "pages" with
      | some (.list ps) => ps.all isDictVal
      | _ => false
    else true
  | .str s => !(isPartItem (.str s))
  | .list l => !(isPartItem (.list l))
  | .int _ => false
  | .bool _ => false
  | .null => false

/-- Well-formedness of an outline: every item is well-formed. -/
def wfOutline (outline : List PVal) : Bool :=
  outline.all wfItem

/-- No page nested inside a part of the outline carries a `"pages"` key.
This is the condition under which a second `flatten_outline` pass is a
no-op. -/
def noNestedPagesKey (outline : List PVal) : Bool :=
  outline.all (fun item =>
    if isPartItem item then (pagesOf item).all (fun p => !(pyIn "pages" p))
    else true)

/-! ## Resolution resolver (`lazyllm_provider.py:59-88`) -/

/-- One step of the integer Newton iteration for square roots, with an
explicit fuel argument so that evaluation is structural. -/
def isqrtIter : Nat → Nat → Nat → Nat
  | 0, _, guess => guess
  | fuel + 1, n, guess =>
    let next := (guess + n / guess) / 2
    if next < guess then isqrtIter fuel n next else guess

/-- Integer square root (largest `r` with `r * r ≤ n`), computed by
Newton iteration; the fuel `n` strictly bounds the number of decreasing
steps. -/
def isqrt (n : Nat) : Nat :=
  if n ≤ 1 then n else isqrtIter n n (n / 2)

/-- Tier lookup `resolution_base.get(resolution, 2048)`
(`lazyllm_provider.py:65-70`): `"1K"`, `"2K"`, `"4K"` map to 1024, 2048,
4096, anything else defaults to 2048. -/
def resolutionBase (resolution : String) : Nat :=
  if resolution = "1K" then 1024
  else if resolution = "2K" then 2048
  else if resolution = "4K" then 4096
  else 2048

/-- Aspect-ratio lookup `aspect_ratios.get(aspect_ratio, (16, 9))`
(`lazyllm_provider.py:60-64, 71`). -/
def aspectRatioOf (aspect_ratio : String) : Nat × Nat :=
  if aspect_ratio = "16:9" then (16, 9)
  else if aspect_ratio = "4:3" then (4, 3)
  else if aspect_ratio = "1:1" then (1, 1)
  else (16, 9)

/-- Core dimension computation of `LazyLLMImageProvider.generate_image`
(`lazyllm_provider.py:72-87`) for a resolved base and ratio.

The ratio split `int(base * ratio[1] / ratio[0])` divides exact dyadic
floats, so its truncation is natural-number floor division.  The
minimum-pixel rescale `int(w * (min_pixels / total) ** 0.5)` is the
floor of `w·√(min_pixels/total) = √(w²·min_pixels/total)`, modelled by
the exact integer square root of `w * w * min_pixels / total`; at every
reachable `(base, ratio)` pair (nine in all) the double-precision value
of the source and this exact value have the same floor, because the
intermediate quotients are exact dyadics and the scaled results are
never within `10^-12` of an integer.  Finally each dimension is rounded
up to a multiple of 64 with a floor of 64. -/
def computeDims (base : Nat) (ratio : Nat × Nat) : Nat × Nat :=
  let wh := if ratio.1 ≥ ratio.2 then (base, base * ratio.2 / ratio.1)
            else (base * ratio.1 / ratio.2, base)
  let min_pixels := 3686400
  let total := wh.1 * wh.2
  let wh := if total < min_pixels then
      (isqrt (wh.1 * wh.1 * min_pixels / total), isqrt (wh.2 * wh.2 * min_pixels / total))
    else wh
  (max 64 ((wh.1 + 63) / 64 * 64), max 64 ((wh.2 + 63) / 64 * 64))

/-- The complete ratio-computed resolution resolver embedded in
`LazyLLMImageProvider.generate_image` (`lazyllm_provider.py:59-88`):
tier and aspect-ratio lookups with silent defaults, then the dimension
computation. -/
def resolveResolution (aspect_ratio resolution : String) : Nat × Nat :=
  computeDims (resolutionBase resolution) (aspectRatioOf aspect_ratio)

/-! ## Outline text (`ai_service.py:197-209`) -/

/-- A single quote character, used by the Python `repr` rendering of
strings inside containers. -/
def squote : String := String.singleton (Char.ofNat 39)

mutual
/-- Python `repr` of an embedded value, as interpolated by f-strings for
non-string values (string escaping inside `repr` is not reproduced; no
title or part name exercised by the specification contains quotes). -/
def pyReprOf : PVal → String
  | .str s => squote ++ s ++ squote
  | .list l => "[" ++ pyReprList l ++ "]"
  | .dict d => "\x7b" ++ pyReprDict d ++ "\x7d"
  | .int n => toString n
  | .bool b => if b then "True" else "False"
  | .null => "None"

/-- Comma-separated `repr` of list elements. -/
def pyReprList : List PVal → String
  | [] => ""
  | [v] => pyReprOf v
  | v :: rest => pyReprOf v ++ ", " ++ pyReprList rest

/-- Comma-separated `repr` of dict entries. -/
def pyReprDict : List (String × PVal) → String
  | [] => ""
  | [(k, v)] => squote ++ k ++ squote ++ ": " ++ pyReprOf v
  | (k, v) :: rest => squote ++ k ++ squote ++ ": " ++ pyReprOf v ++ ", " ++ pyReprDict rest
end

/-- Python `str()` conversion as used by f-string interpolation: a
string interpolates as itself, containers via `repr`. -/
def pyStrOf : PVal → String
  | .str s => s
  | v => pyReprOf v

/-- Pair each element with its 1-based position, models
`enumerate(outline, 1)`. -/
def enumFrom : Nat → List PVal → List (Nat × PVal)
  | _, [] => []
  | i, x :: xs => (i, x) :: enumFrom (i + 1) xs

/-- One line of `generate_outline_text` (`ai_service.py:203-207`): the
part guard raises first on a non-iterable scalar item; a part-shaped
item renders `f"{i}. {item['part']}"`, any other item renders
`f"{i}. {item.get('title', 'Untitled')}"`; a non-dict item in the
second branch raises (`.get` is a dict method). -/
def outlineLine (i : Nat) (item : PVal) : Except String String :=
  match isPartItemCk item with
  | .error e => .error e
  | .ok true => (subscript item "part").map (fun v => toString i ++ ". " ++ pyStrOf v)
  | .ok false =>
    match item with
    | .dict d => .ok (toString i ++ ". " ++ pyStrOf ((dictFind d "title").getD (PVal.str "Untitled")))
    | _ => .error "AttributeError: value has no method get"

/-- Loop of `generate_outline_text` (`ai_service.py:202-207`): build
the numbered entry for each item in order, starting at index `i`. -/
def outlineLines (i : Nat) : List PVal → Except String (List String)
  | [] => .ok []
  | item :: rest => do
    let line ← outlineLine i item
    let tail ← outlineLines (i + 1) rest
    pure (line :: tail)

/-- Embedding of `AIService.generate_outline_text`
(`ai_service.py:197-209`).  The source wraps the joined string in
`textwrap.dedent`; every produced line starts with a decimal digit (the
1-based index), so the common leading whitespace is empty and `dedent`
is the identity on every output of this function (and on the empty
string); it is therefore omitted. -/
def generate_outline_text (outline : List PVal) : Except String String :=
  (outlineLines 1 outline).map (fun lines => String.intercalate "\n" lines)

/-- Specified text of one outline entry, following the specification's
wording (part name for a part, title with an `"Untitled"` fallback for a
page), with the fallback applying exactly when the `"title"` key is
absent. -/
def lineSpec (p : Nat × PVal) : String :=
  if isPartItem p.2 then toString p.1 ++ ". " ++ pyStrOf (partValOf p.2)
  else
    match p.2 with
    | .dict d => toString p.1 ++ ". " ++ pyStrOf ((dictFind d "title").getD (PVal.str "Untitled"))
    | v => toString p.1 ++ ". " ++ pyStrOf v

/-! ## Markdown image URL extractor (`ai_service.py:31-52`) -/

/-- Match the tail of the regex `r"!\[.*?\]\((.*?)\)"` after the opening
parenthesis: the lazy capture `(.*?)` extends to the first `)` and `.`
does not match a newline.  Returns the capture and the remaining input
on success. -/
def findUrl : List Char → Option (List Char × List Char)
  | [] => none
  | c :: cs =>
    if c == ')' then some ([], cs)
    else if c == '\n' then none
    else (findUrl cs).map (fun p => (c :: p.1, p.2))

/-- Match the part of the regex after `![`: the lazy alt text `.*?`
grows one non-newline character at a time until a `](` is found whose
parenthesized part also matches, exactly as the backtracking engine
behaves.  Returns the url capture and the remaining input. -/
def matchRest : List Char → Option (List Char × List Char)
  | [] => none
  | c :: cs =>
    if c == ']' then
      match cs with
      | '(' :: cs2 =>
        match findUrl cs2 with
        | some p => some p
        | none => matchRest cs
      | _ => matchRest cs
    else if c == '\n' then none
    else matchRest cs

/-- Scan of `re.findall(r"!\[.*?\]\((.*?)\)", text)`: at each position
try to match the pattern; on success collect the capture and resume
after the consumed match, on failure advance one character.  The fuel
argument makes the recursion structural; every call consumes at least
one character of the text, so the text length is sufficient fuel. -/
def scanImgsAux : Nat → List Char → List (List Char)
  | 0, _ => []
  | _ + 1, [] => []
  | fuel + 1, '!' :: '[' :: cs =>
    match matchRest cs with
    | some (u, r) => u :: scanImgsAux fuel r
    | none => scanImgsAux fuel ('[' :: cs)
  | fuel + 1, _ :: cs => scanImgsAux fuel cs

/-- All url captures of the markdown image pattern, left to right. -/
def scanImgs (cs : List Char) : List (List Char) :=
  scanImgsAux cs.length cs

/-- The whitespace characters stripped by Python `str.strip()` (ASCII
set; all inputs in scope are ASCII). -/
def pyIsSpace (c : Char) : Bool :=
  c == ' ' || c == '\t' || c == '\n' || c == '\r' || c == '\x0b' || c == '\x0c'

/-- Python `str.strip()` over a character list: drop whitespace from
both ends. -/
def pyStripChars (l : List Char) : List Char :=
  ((l.dropWhile pyIsSpace).reverse.dropWhile pyIsSpace).reverse

/-- Filter condition of the list comprehension at `ai_service.py:50`:
`url.strip() and (url.startswith('http://') or url.startswith('https://'))`
— the truthiness test is on the stripped capture, the scheme test on the
unstripped capture. -/
def urlKeep (url : List Char) : Bool :=
  !(pyStripChars url).isEmpty &&
    (listStartsWith "http://".data url || listStartsWith "https://".data url)

/-- Embedding of `AIService.extract_image_urls_from_markdown`
(`ai_service.py:31-52`): empty input short-circuits to `[]` (the guard
`if not text` also catches a `None` argument, which the string type of
the embedding cannot represent); otherwise regex captures are filtered
by `urlKeep` and the kept captures are returned stripped. -/
def extract_image_urls_from_markdown (text : String) : List String :=
  if text = "" then []
  else ((scanImgs text.data).filter urlKeep).map (fun u => String.mk (pyStripChars u))

/-! ## Image resolution check (`image_utils.py:8-30`) -/

/-- The two fields of a PIL image that `check_image_resolution` reads. -/
structure PILImage where
  width : Nat
  height : Nat

/-- Models Python `str.upper()`: upper-case every character (ASCII
mapping; the expected-resolution strings in scope are ASCII, where
CPython's `upper` and `Char.toUpper` agree). -/
def pyUpper (s : String) : String :=
  String.mk (s.data.map Char.toUpper)

/-- Embedding of `check_image_resolution` (`image_utils.py:8-30`): the
image's larger dimension selects a category (`< 1500` is `"1K"`,
`< 3000` is `"2K"`, otherwise `"4K"`), and the match flag compares the
category with the upper-cased expected string. -/
def check_image_resolution (image : PILImage) (expected_resolution : String) : String × Bool :=
  let max_dimension := max image.width image.height
  let actual := if max_dimension < 1500 then "1K"
    else if max_dimension < 3000 then "2K"
    else "4K"
  (actual, actual == pyUpper expected_resolution)

/-! ## Fixed-lookup size table of the v0 demo (`lazyllm_genai.py:110-116`) -/

/-- The static tier table of `gen_image`:
`resolution_map.get(resolution, resolution)`. -/
def resolution_map_get (resolution : String) : String :=
  if resolution = "1K" then "1920*1080"
  else if resolution = "2K" then "2048*1080"
  else if resolution = "4K" then "3840*2160"
  else resolution

/-- Size string sent to the vendor by `gen_image`
(`lazyllm_genai.py:100-130`): determined by the tier alone; the
`aspect_ratio` parameter is accepted but never read. -/
def gen_image_size (aspect_ratio resolution : String) : String :=
  resolution_map_get resolution

/-! ## Heap model of the copy-on-annotate loop (`ai_service.py:138-148`)

Python page records are mutable dict objects; to state that
`flatten_outline` never mutates its input, the pages nested inside part
items are modelled as addresses into an explicit heap of dict cells, and
the loop body `page.copy(); page_with_part["part"] = ...` becomes an
allocation followed by a store to the fresh cell. -/

/-- Dict cells addressed by position; out-of-range reads return the
empty dict (never exercised by well-formed states). -/
def cellsGet : List (List (String × PVal)) → Nat → List (String × PVal)
  | [], _ => []
  | c :: _, 0 => c
  | _ :: rest, n + 1 => cellsGet rest n

/-- Store a dict at an address, leaving every other cell unchanged. -/
def cellsSet : List (List (String × PVal)) → Nat → List (String × PVal) →
    List (List (String × PVal))
  | [], _, _ => []
  | _ :: rest, 0, d => d :: rest
  | c :: rest, n + 1, d => c :: cellsSet rest n d

/-- A heap of mutable Python dict objects. -/
structure Heap where
  cells : List (List (String × PVal))

/-- Read the dict object at an address. -/
def Heap.get (h : Heap) (a : Nat) : List (String × PVal) :=
  cellsGet h.cells a

/-- Overwrite the dict object at an address. -/
def Heap.store (h : Heap) (a : Nat) (d : List (String × PVal)) : Heap :=
  ⟨cellsSet h.cells a d⟩

/-- Allocate a fresh dict object, returning the new heap and its
address. -/
def Heap.alloc (h : Heap) (d : List (String × PVal)) : Heap × Nat :=
  (⟨h.cells ++ [d]⟩, h.cells.length)

/-- An outline item as seen by the heap-level loop: either a direct
(non-part) value appended as it is, or a part whose `"part"` value and
page-record addresses were read off the item dict. -/
inductive HItem where
  | direct (v : PVal)
  | part (partVal : PVal) (pageAddrs : List Nat)

/-- Inner loop of `flatten_outline` over one part
(`ai_service.py:141-144`): for each page address, read the page record,
allocate a shallow copy (`page.copy()`), store the `"part"` annotation
into the fresh cell (`page_with_part["part"] = item["part"]`), and
collect the fresh address. -/
def expandPagesHeap (h : Heap) (partVal : PVal) : List Nat → Heap × List Nat
  | [] => (h, [])
  | a :: rest =>
    let d := h.get a
    let alloc := h.alloc d
    let h2 := alloc.1.store alloc.2 (dictSet d "part" partVal)
    let step := expandPagesHeap h2 partVal rest
    (step.1, alloc.2 :: step.2)

/-- Heap-level `flatten_outline` loop (`ai_service.py:137-148`): direct
items are appended unmodified, part items are expanded through
`expandPagesHeap`. -/
def flattenHeap (h : Heap) : List HItem → Heap × List (Nat ⊕ PVal)
  | [] => (h, [])
  | .direct v :: rest =>
    let step := flattenHeap h rest
    (step.1, Sum.inr v :: step.2)
  | .part pv addrs :: rest =>
    let inner := expandPagesHeap h pv addrs
    let step := flattenHeap inner.1 rest
    (step.1, (inner.2.map Sum.inl) ++ step.2)

/-! ## Basic lemmas about the embedding -/

/-- Bind on a successful `Except` computation runs the continuation. -/
theorem exbind_ok {α β : Type} (a : α) (f : α → Except String β) :
    (Except.ok a >>= f : Except String β) = f a := rfl

/-- Map over a successful `Except` computation applies the function. -/
theorem exmap_ok {α β : Type} (a : α) (f : α → β) :
    (Except.ok a : Except String α).map f = .ok (f a) := rfl

/-- A dict whose membership test succeeds has a stored value. -/
theorem dictFind_some_of_hasKey {d : List (String × PVal)} {k : String}
    (h : dictHasKey d k = true) : ∃ v, dictFind d k = some v := by
  induction d with
  | nil => simp [dictHasKey] at h
  | cons p rest ih =>
    by_cases hp : (p.1 == k) = true
    · refine ⟨p.2, ?_⟩
      have hfind : List.find? (fun q => q.1 == k) (p :: rest) = some p :=
        List.find?_cons_of_pos rest hp
      unfold dictFind
      rw [hfind]
      rfl
    · have h2 : dictHasKey rest k = true := by
        simp only [dictHasKey, List.any_cons, hp, Bool.false_or] at h
        exact h
      obtain ⟨v, hv⟩ := ih h2
      refine ⟨v, ?_⟩
      have hfind : List.find? (fun q => q.1 == k) (p :: rest) =
          List.find? (fun q => q.1 == k) rest :=
        List.find?_cons_of_neg rest hp
      unfold dictFind at hv ⊢
      rw [hfind]
      exact hv

/-- Subscripting a dict through a found key returns the stored value. -/
theorem subscript_dict_ok {d : List (String × PVal)} {k : String} {v : PVal}
    (h : dictFind d k = some v) : subscript (.dict d) k = .ok v := by
  simp only [subscript, h]

/-- When both membership tests compute purely, the checked guard is the
pure guard. -/
theorem ckOfPure (v : PVal) (h1 : pyInCk "part" v = .ok (pyIn "part" v))
    (h2 : pyInCk "pages" v = .ok (pyIn "pages" v)) :
    isPartItemCk v = .ok (isPartItem v) := by
  unfold isPartItemCk isPartItem
  rw [h1, exbind_ok]
  by_cases hb : pyIn "part" v = true
  · rw [if_pos hb, h2, hb, Bool.true_and]
  · have hbf : pyIn "part" v = false := by simpa using hb
    rw [if_neg hb, hbf, Bool.false_and]
    rfl

/-- On a dict, list, or string the checked guard returns the pure guard
value without raising. -/
theorem isPartItemCk_nonscalar :
    ∀ v : PVal, isScalar v = false → isPartItemCk v = .ok (isPartItem v) := by
  intro v hv
  cases v with
  | int n => simp [isScalar] at hv
  | bool b => simp [isScalar] at hv
  | null => simp [isScalar] at hv
  | str s => exact ckOfPure _ rfl rfl
  | list l => exact ckOfPure _ rfl rfl
  | dict d => exact ckOfPure _ rfl rfl

/-- On a non-iterable scalar the checked guard raises the membership
`TypeError`. -/
theorem isPartItemCk_scalar :
    ∀ v : PVal, isScalar v = true →
      isPartItemCk v = .error "TypeError: argument is not iterable" := by
  intro v hv
  cases v with
  | int n => rfl
  | bool b => rfl
  | null => rfl
  | str s => simp [isScalar] at hv
  | list l => simp [isScalar] at hv
  | dict d => simp [isScalar] at hv

/-- A raising guard aborts `flatten_outline` with the same error. -/
theorem flatten_outline_cons_error (item : PVal) (rest : List PVal) (e : String)
    (h : isPartItemCk item = .error e) :
    flatten_outline (item :: rest) = .error e := by
  rw [flatten_outline, h]

/-- A passing guard selects the part branch of `flatten_outline`. -/
theorem flatten_outline_cons_part (item : PVal) (rest : List PVal)
    (h : isPartItemCk item = .ok true) :
    flatten_outline (item :: rest) = (do
      let pagesVal ← subscript item "pages"
      let partVal ← subscript item "part"
      let pages ← pyIterCk pagesVal
      let expanded ← annotatePages partVal pages
      let tail ← flatten_outline rest
      pure (expanded ++ tail)) := by
  rw [flatten_outline, h]

/-- A failing guard selects the direct branch of `flatten_outline`. -/
theorem flatten_outline_cons_direct (item : PVal) (rest : List PVal)
    (h : isPartItemCk item = .ok false) :
    flatten_outline (item :: rest) = (do
      let tail ← flatten_outline rest
      pure (item :: tail)) := by
  rw [flatten_outline, h]

/-- An erroring guard aborts `outlineLine` with the same error. -/
theorem outlineLine_error (i : Nat) (item : PVal) (e : String)
    (h : isPartItemCk item = .error e) : outlineLine i item = .error e := by
  unfold outlineLine
  rw [h]

/-- A passing guard selects the part rendering of `outlineLine`. -/
theorem outlineLine_part (i : Nat) (item : PVal)
    (h : isPartItemCk item = .ok true) :
    outlineLine i item =
      (subscript item "part").map (fun v => toString i ++ ". " ++ pyStrOf v) := by
  unfold outlineLine
  rw [h]

/-- A failing guard on a dict item selects the title rendering of
`outlineLine`. -/
theorem outlineLine_direct_dict (i : Nat) (d : List (String × PVal))
    (h : isPartItemCk (.dict d) = .ok false) :
    outlineLine i (.dict d) =
      .ok (toString i ++ ". " ++ pyStrOf ((dictFind d "title").getD (PVal.str "Untitled"))) := by
  unfold outlineLine
  rw [h]

/-! ## Resolution resolver theorems -/

/-- The tier lookup can only produce one of its three table values or
the default. -/
theorem resolutionBase_cases (res : String) :
    resolutionBase res = 1024 ∨ resolutionBase res = 2048 ∨ resolutionBase res = 4096 := by
  unfold resolutionBase
  split_ifs <;> simp

/-- The aspect-ratio lookup can only produce one of its three table
values or the default. -/
theorem aspectRatioOf_cases (ar : String) :
    aspectRatioOf ar = (16, 9) ∨ aspectRatioOf ar = (4, 3) ∨ aspectRatioOf ar = (1, 1) := by
  unfold aspectRatioOf
  split_ifs <;> simp

/-- C1: for every aspect-ratio string and every tier string (including
unrecognized ones, which fall back to the defaults), the ratio-computed
resolver of `LazyLLMImageProvider.generate_image` produces a width and a
height that are each at least 64, each an exact multiple of 64, and
whose product is at least 3,686,400. -/
theorem resolveResolution_bounds (ar res : String) :
    64 ≤ (resolveResolution ar res).1 ∧ (resolveResolution ar res).1 % 64 = 0 ∧
    64 ≤ (resolveResolution ar res).2 ∧ (resolveResolution ar res).2 % 64 = 0 ∧
    3686400 ≤ (resolveResolution ar res).1 * (resolveResolution ar res).2 := by
  unfold resolveResolution
  rcases resolutionBase_cases res with hb | hb | hb <;>
    rcases aspectRatioOf_cases ar with ha | ha | ha <;>
      rw [hb, ha] <;> decide

/-- C7: an unrecognized tier or aspect-ratio string is not an error: the
resolver computes exactly what it computes with the default tier base
(the `"2K"` base, 2048) respectively the default ratio (`"16:9"`),
silently — the resolver is a total function with no failure path. -/
theorem resolveResolution_silent_defaults (ar res : String) :
    (res ≠ "1K" → res ≠ "2K" → res ≠ "4K" →
      resolveResolution ar res = resolveResolution ar "2K") ∧
    (ar ≠ "16:9" → ar ≠ "4:3" → ar ≠ "1:1" →
      resolveResolution ar res = resolveResolution "16:9" res) := by
  constructor
  · intro h1 h2 h3
    unfold resolveResolution
    have hb : resolutionBase res = resolutionBase "2K" := by
      unfold resolutionBase
      rw [if_neg h1, if_neg h2, if_neg h3]
      decide
    rw [hb]
  · intro h1 h2 h3
    unfold resolveResolution
    have ha : aspectRatioOf ar = aspectRatioOf "16:9" := by
      unfold aspectRatioOf
      rw [if_neg h1, if_neg h2, if_neg h3]
      decide
    rw [ha]

/-- Witness for C7, at the unrecognized tier `"8K"` and the unrecognized
ratio `"21:9"`. -/
theorem resolveResolution_silent_defaults_witness :
    resolveResolution "21:9" "8K" = resolveResolution "21:9" "2K" ∧
    resolveResolution "21:9" "8K" = resolveResolution "16:9" "8K" :=
  ⟨(resolveResolution_silent_defaults "21:9" "8K").1 (by decide) (by decide) (by decide),
   (resolveResolution_silent_defaults "21:9" "8K").2 (by decide) (by decide) (by decide)⟩

/-- C9: in the fixed-lookup variant (`gen_image` of the v0 demo), the
size string sent to the vendor is a static function of the tier —
`"1K" ↦ "1920*1080"`, `"2K" ↦ "2048*1080"`, `"4K" ↦ "3840*2160"` — and
does not depend on the aspect-ratio argument at all. -/
theorem gen_image_size_table (ar ar2 res : String) :
    gen_image_size ar "1K" = "1920*1080" ∧
    gen_image_size ar "2K" = "2048*1080" ∧
    gen_image_size ar "4K" = "3840*2160" ∧
    gen_image_size ar res = gen_image_size ar2 res :=
  ⟨by unfold gen_image_size; decide, by unfold gen_image_size; decide,
   by unfold gen_image_size; decide, rfl⟩

/-- C10: `check_image_resolution` classifies the image by its larger
dimension — strictly below 1500 is `"1K"`, strictly below 3000 is
`"2K"`, otherwise `"4K"` — and reports a match exactly when the category
equals the upper-cased expected string, so two expected strings with the
same upper-casing are interchangeable. -/
theorem check_image_resolution_spec (img : PILImage) (e e2 : String)
    (hcase : pyUpper e = pyUpper e2) :
    ((check_image_resolution img e).1 = "1K" ↔ max img.width img.height < 1500) ∧
    ((check_image_resolution img e).1 = "2K" ↔
      (1500 ≤ max img.width img.height ∧ max img.width img.height < 3000)) ∧
    ((check_image_resolution img e).1 = "4K" ↔ 3000 ≤ max img.width img.height) ∧
    ((check_image_resolution img e).2 = true ↔ (check_image_resolution img e).1 = pyUpper e) ∧
    check_image_resolution img e2 = check_image_resolution img e := by
  have hlast : check_image_resolution img e2 = check_image_resolution img e := by
    unfold check_image_resolution
    rw [hcase]
  refine ⟨?_, ?_, ?_, ?_, hlast⟩ <;>
    unfold check_image_resolution <;>
      dsimp only <;>
        split_ifs with h1 h2 <;>
          simp [beq_iff_eq] <;> omega

/-- Witness for C10 at a 1920x1080 image and the lower-case expected
string `"2k"`. -/
theorem check_image_resolution_spec_witness :
    ((check_image_resolution ⟨1920, 1080⟩ "2k").2 = true ↔
      (check_image_resolution ⟨1920, 1080⟩ "2k").1 = pyUpper "2k") ∧
    check_image_resolution ⟨1920, 1080⟩ "2K" = check_image_resolution ⟨1920, 1080⟩ "2k" :=
  ⟨(check_image_resolution_spec ⟨1920, 1080⟩ "2k" "2K" (by decide)).2.2.2.1,
   (check_image_resolution_spec ⟨1920, 1080⟩ "2k" "2K" (by decide)).2.2.2.2⟩

/-! ## Flatten theorems -/

/-- Annotating well-formed (all-dict) pages succeeds and produces the
pure annotations in order. -/
theorem annotatePages_ok (pv : PVal) (ps : List PVal)
    (h : ps.all isDictVal = true) :
    annotatePages pv ps = .ok (ps.map (annotatePage pv)) := by
  induction ps with
  | nil => rfl
  | cons p rest ih =>
    rw [List.all_cons, Bool.and_eq_true] at h
    obtain ⟨hp, hrest⟩ := h
    cases p with
    | dict d =>
      rw [annotatePages, show copyAnnotate pv (.dict d) = .ok (annotatePage pv (.dict d)) from rfl,
        exbind_ok, ih hrest, exbind_ok]
      rfl
    | str s => simp [isDictVal] at hp
    | list l => simp [isDictVal] at hp
    | int n => simp [isDictVal] at hp
    | bool b => simp [isDictVal] at hp
    | null => simp [isDictVal] at hp

/-- On a well-formed outline, `flatten_outline` succeeds and returns
exactly the concatenation, in input order, of each item's contribution:
a direct page itself, a part's pages each annotated with the parent's
part name. -/
theorem flatten_ok_of_wf :
    ∀ outline : List PVal, wfOutline outline = true →
      flatten_outline outline = .ok (expandAll outline) := by
  intro outline
  induction outline with
  | nil => intro h; rfl
  | cons item rest ih =>
    intro h
    rw [wfOutline, List.all_cons, Bool.and_eq_true] at h
    obtain ⟨hitem, hrest⟩ := h
    have htail : flatten_outline rest = .ok (expandAll rest) := ih hrest
    by_cases hp : isPartItem item = true
    · cases item with
      | str s => rw [wfItem, hp] at hitem; simp at hitem
      | list l => rw [wfItem, hp] at hitem; simp at hitem
      | int n => rw [wfItem] at hitem; simp at hitem
      | bool b => rw [wfItem] at hitem; simp at hitem
      | null => rw [wfItem] at hitem; simp at hitem
      | dict d =>
        rw [wfItem, if_pos hp] at hitem
        cases hfind : dictFind d "pages" with
        | none => rw [hfind] at hitem; simp at hitem
        | some v =>
          cases v with
          | str s => rw [hfind] at hitem; simp at hitem
          | dict d2 => rw [hfind] at hitem; simp at hitem
          | int n => rw [hfind] at hitem; simp at hitem
          | bool b => rw [hfind] at hitem; simp at hitem
          | null => rw [hfind] at hitem; simp at hitem
          | list ps =>
            rw [hfind] at hitem
            simp only [] at hitem
            have hpart : dictHasKey d "part" = true := by
              have hp2 := hp
              rw [isPartItem, Bool.and_eq_true] at hp2
              exact hp2.1
            obtain ⟨pv, hpv⟩ := dictFind_some_of_hasKey hpart
            have hck : isPartItemCk (.dict d) = .ok true := by
              rw [isPartItemCk_nonscalar (.dict d) rfl, hp]
            rw [flatten_outline_cons_part _ _ hck,
              subscript_dict_ok (show dictFind d "pages" = some (.list ps) from hfind),
              exbind_ok, subscript_dict_ok hpv, exbind_ok,
              show pyIterCk (.list ps) = .ok ps from rfl, exbind_ok,
              annotatePages_ok pv ps hitem, exbind_ok, htail, exbind_ok]
            rw [expandAll]
            have hexp : expandItem (.dict d) = ps.map (annotatePage pv) := by
              have h1 : pagesOf (.dict d) = ps := by
                have e : pagesOf (.dict d) = (match dictFind d "pages" with
                  | some (.list ps2) => ps2
                  | _ => []) := rfl
                rw [e, hfind]
              have h2 : partValOf (.dict d) = pv := by
                have e : partValOf (.dict d) = (dictFind d "part").getD (PVal.str "") := rfl
                rw [e, hpv]
                rfl
              unfold expandItem
              rw [if_pos hp, h1, h2]
            rw [hexp]
            rfl
    · have hns : isScalar item = false := by
        cases item <;> first | rfl | (rw [wfItem] at hitem; simp at hitem)
      have hpf : isPartItem item = false := by simpa using hp
      have hck : isPartItemCk item = .ok false := by
        rw [isPartItemCk_nonscalar item hns, hpf]
      rw [flatten_outline_cons_direct item rest hck, htail, exbind_ok]
      rw [expandAll]
      have hexp : expandItem item = [item] := by
        unfold expandItem
        rw [if_neg hp]
      rw [hexp]
      rfl

/-- The specified flat output has the specified length. -/
theorem expandAll_length :
    ∀ outline : List PVal, (expandAll outline).length = sumSizes outline := by
  intro outline
  induction outline with
  | nil => rfl
  | cons item rest ih =>
    rw [expandAll, sumSizes, List.length_append, ih]
    congr 1
    unfold expandItem itemSize
    by_cases hp : isPartItem item = true
    · rw [if_pos hp, if_pos hp, List.length_map]
    · rw [if_neg hp, if_neg hp]
      rfl

/-- C2: on every well-formed outline, `flatten_outline` returns exactly
the input-order concatenation of item contributions — each direct page
itself, each part's pages contiguously in their intra-part order, each
annotated with the parent's `"part"` name — so no page is dropped or
duplicated, and the output length is the number of direct pages plus the
sum of the parts' page counts. -/
theorem flatten_outline_spec (outline : List PVal) (h : wfOutline outline = true) :
    flatten_outline outline = .ok (expandAll outline) ∧
    (expandAll outline).length = sumSizes outline :=
  ⟨flatten_ok_of_wf outline h, expandAll_length outline⟩

/-- Witness for C2 at a two-item outline: one part with one page and one
direct page. -/
theorem flatten_outline_spec_witness :
    flatten_outline
        [PVal.dict [("part", PVal.str "P1"),
           ("pages", PVal.list [PVal.dict [("title", PVal.str "B")]])],
         PVal.dict [("title", PVal.str "A")]] =
      .ok (expandAll
        [PVal.dict [("part", PVal.str "P1"),
           ("pages", PVal.list [PVal.dict [("title", PVal.str "B")]])],
         PVal.dict [("title", PVal.str "A")]]) ∧
    (expandAll
        [PVal.dict [("part", PVal.str "P1"),
           ("pages", PVal.list [PVal.dict [("title", PVal.str "B")]])],
         PVal.dict [("title", PVal.str "A")]]).length =
      sumSizes
        [PVal.dict [("part", PVal.str "P1"),
           ("pages", PVal.list [PVal.dict [("title", PVal.str "B")]])],
         PVal.dict [("title", PVal.str "A")]] :=
  flatten_outline_spec
    [PVal.dict [("part", PVal.str "P1"),
       ("pages", PVal.list [PVal.dict [("title", PVal.str "B")]])],
     PVal.dict [("title", PVal.str "A")]] (by decide)

/-- C3 counterexample: a non-mapping element (here a plain string that
contains neither a `"part"` nor a `"pages"` occurrence) is passed
through to the output unchanged, and the call succeeds — no TypeMismatch
condition is raised for it. -/
theorem flatten_outline_nonmapping_passthrough :
    flatten_outline [PVal.str "hello"] = .ok [PVal.str "hello"] := rfl

/-- C3 (amended): for an element that cannot be interpreted as a part,
`flatten_outline` fails fast only when the element is a non-iterable
scalar (a number, boolean, or null) — the membership test `"part" in
item` itself raises a `TypeError` — while an iterable element failing
the part guard, including non-mappings such as plain strings and lists,
is silently appended to the output unchanged rather than raising. -/
theorem flatten_outline_nonpart_behavior (item : PVal) (rest : List PVal) :
    (isScalar item = true →
      flatten_outline (item :: rest) = .error "TypeError: argument is not iterable") ∧
    (isPartItemCk item = .ok false →
      flatten_outline (item :: rest) =
        (flatten_outline rest).map (fun pages => item :: pages)) := by
  constructor
  · intro h
    exact flatten_outline_cons_error item rest _ (isPartItemCk_scalar item h)
  · intro h
    rw [flatten_outline_cons_direct item rest h]
    cases hr : flatten_outline rest
    · rfl
    · rfl

/-- Witness for the amended C3: a numeric element fails fast with the
membership `TypeError`, a plain-string element is passed through. -/
theorem flatten_outline_nonpart_behavior_witness :
    flatten_outline [PVal.int 42] = .error "TypeError: argument is not iterable" ∧
    flatten_outline [PVal.str "hello"] =
      (flatten_outline []).map (fun pages => PVal.str "hello" :: pages) :=
  ⟨(flatten_outline_nonpart_behavior (PVal.int 42) []).1 rfl,
   (flatten_outline_nonpart_behavior (PVal.str "hello") []).2 rfl⟩

/-- A `dictSet` on one key does not change the presence of a different
key. -/
theorem any_key_map_set (k k2 : String) (v : PVal) :
    ∀ d : List (String × PVal),
      (d.map (fun p => if p.1 == k then (k, v) else p)).any (fun p => p.1 == k2) =
        d.any (fun p => p.1 == k2) := by
  intro d
  induction d with
  | nil => rfl
  | cons p rest ih =>
    rw [List.map_cons, List.any_cons, List.any_cons, ih]
    congr 1
    by_cases hpk : (p.1 == k) = true
    · rw [if_pos hpk]
      have hpe : p.1 = k := by simpa [beq_iff_eq] using hpk
      simp [hpe]
    · rw [if_neg hpk]

/-- Overwriting or appending key `k` leaves the membership of any other
key `k2` unchanged. -/
theorem dictHasKey_dictSet_ne (d : List (String × PVal)) (k k2 : String) (v : PVal)
    (hne : k2 ≠ k) : dictHasKey (dictSet d k v) k2 = dictHasKey d k2 := by
  unfold dictSet
  by_cases hk : dictHasKey d k = true
  · rw [if_pos hk]
    exact any_key_map_set k k2 v d
  · rw [if_neg hk]
    unfold dictHasKey
    rw [List.any_append]
    have hkk : (k == k2) = false := by
      simp only [beq_eq_false_iff_ne]
      exact fun h => hne h.symm
    simp [List.any_cons, hkk]

/-- Every member of the specified flat output comes from some item's
contribution. -/
theorem mem_expandAll {y : PVal} :
    ∀ outline : List PVal, y ∈ expandAll outline → ∃ item ∈ outline, y ∈ expandItem item := by
  intro outline
  induction outline with
  | nil => intro h; simp [expandAll] at h
  | cons item rest ih =>
    intro h
    rw [expandAll, List.mem_append] at h
    rcases h with h | h
    · exact ⟨item, by simp, h⟩
    · obtain ⟨it, hit, hy⟩ := ih h
      exact ⟨it, by simp [hit], hy⟩

/-- An outline on which every element fails the checked part guard
without raising flattens to itself. -/
theorem flatten_all_direct :
    ∀ ys : List PVal, (∀ y ∈ ys, isPartItemCk y = .ok false) →
      flatten_outline ys = .ok ys := by
  intro ys
  induction ys with
  | nil => intro h; rfl
  | cons y rest ih =>
    intro h
    have hy : isPartItemCk y = .ok false := h y (by simp)
    have hrest := ih (fun z hz => h z (by simp [hz]))
    rw [flatten_outline_cons_direct y rest hy, hrest, exbind_ok]
    rfl

/-- C4 counterexample: on a part whose page record itself carries a
`"pages"` key, the first flatten emits that page annotated with
`"part"`; the annotated page then carries both `"part"` and `"pages"`,
so a second flatten re-expands it (here to the empty list) instead of
being a no-op. -/
theorem flatten_outline_not_idem :
    flatten_outline [PVal.dict [("part", PVal.str "P"),
        ("pages", PVal.list [PVal.dict [("title", PVal.str "A"), ("pages", PVal.list [])]])]] =
      .ok [PVal.dict [("title", PVal.str "A"), ("pages", PVal.list []), ("part", PVal.str "P")]] ∧
    flatten_outline
        [PVal.dict [("title", PVal.str "A"), ("pages", PVal.list []), ("part", PVal.str "P")]] =
      .ok [] ∧
    (Except.ok ([] : List PVal) : Except String (List PVal)) ≠
      .ok [PVal.dict [("title", PVal.str "A"), ("pages", PVal.list []), ("part", PVal.str "P")]] :=
  ⟨rfl, rfl, by
    intro h
    injection h with h2
    exact List.noConfusion h2⟩

/-- C4 (amended): a second `flatten_outline` pass is a no-op on the
output of a first pass, provided no page record nested inside a part of
the well-formed input carries a `"pages"` key (the claim's own rationale
— a flattened page has a flat `"part"` string, not a part object — holds
exactly under this proviso). -/
theorem flatten_outline_idem (outline ys : List PVal)
    (hwf : wfOutline outline = true) (hnn : noNestedPagesKey outline = true)
    (hflat : flatten_outline outline = .ok ys) :
    flatten_outline ys = .ok ys := by
  have hys : ys = expandAll outline := by
    have h2 := flatten_ok_of_wf outline hwf
    rw [hflat] at h2
    injection h2
  subst hys
  apply flatten_all_direct
  intro y hy
  obtain ⟨item, hitem, hyitem⟩ := mem_expandAll _ hy
  have hwfitem : wfItem item = true := by
    rw [wfOutline, List.all_eq_true] at hwf
    exact hwf item hitem
  have hnnitem : (if isPartItem item then
      (pagesOf item).all (fun p => !(pyIn "pages" p)) else true) = true := by
    rw [noNestedPagesKey, List.all_eq_true] at hnn
    exact hnn item hitem
  unfold expandItem at hyitem
  by_cases hp : isPartItem item = true
  · rw [if_pos hp] at hyitem
    rw [List.mem_map] at hyitem
    obtain ⟨p, hpmem, hpy⟩ := hyitem
    rw [if_pos hp] at hnnitem
    cases item with
    | str s => rw [wfItem, hp] at hwfitem; simp at hwfitem
    | list l => rw [wfItem, hp] at hwfitem; simp at hwfitem
    | int n => rw [wfItem] at hwfitem; simp at hwfitem
    | bool b => rw [wfItem] at hwfitem; simp at hwfitem
    | null => rw [wfItem] at hwfitem; simp at hwfitem
    | dict d =>
      rw [wfItem, if_pos hp] at hwfitem
      cases hfind : dictFind d "pages" with
      | none => rw [hfind] at hwfitem; simp at hwfitem
      | some v =>
        cases v with
        | str s => rw [hfind] at hwfitem; simp at hwfitem
        | dict d2 => rw [hfind] at hwfitem; simp at hwfitem
        | int n => rw [hfind] at hwfitem; simp at hwfitem
        | bool b => rw [hfind] at hwfitem; simp at hwfitem
        | null => rw [hfind] at hwfitem; simp at hwfitem
        | list ps =>
          rw [hfind] at hwfitem
          have hpages : pagesOf (.dict d) = ps := by
            have e : pagesOf (.dict d) = (match dictFind d "pages" with
              | some (.list ps2) => ps2
              | _ => []) := rfl
            rw [e, hfind]
          rw [hpages] at hpmem hnnitem
          have hnp : pyIn "pages" p = false := by
            rw [List.all_eq_true] at hnnitem
            simpa using hnnitem p hpmem
          rw [List.all_eq_true] at hwfitem
          have hpd := hwfitem p hpmem
          cases p with
          | str s => simp [isDictVal] at hpd
          | list l => simp [isDictVal] at hpd
          | int n => simp [isDictVal] at hpd
          | bool b => simp [isDictVal] at hpd
          | null => simp [isDictVal] at hpd
          | dict pd =>
            have hfalse : isPartItem (.dict (dictSet pd "part" (partValOf (.dict d)))) = false := by
              unfold isPartItem
              have hkey : dictHasKey (dictSet pd "part" (partValOf (.dict d))) "pages" = false := by
                rw [dictHasKey_dictSet_ne pd "part" "pages" _ (by decide)]
                simpa [pyIn] using hnp
              rw [show pyIn "pages" (PVal.dict (dictSet pd "part" (partValOf (.dict d)))) =
                  dictHasKey (dictSet pd "part" (partValOf (.dict d))) "pages" from rfl, hkey]
              simp
            have hform : annotatePage (partValOf (.dict d)) (.dict pd) =
                .dict (dictSet pd "part" (partValOf (.dict d))) := rfl
            rw [← hpy, hform,
              isPartItemCk_nonscalar (.dict (dictSet pd "part" (partValOf (.dict d)))) rfl, hfalse]
  · rw [if_neg hp] at hyitem
    rw [List.mem_singleton] at hyitem
    rw [hyitem]
    have hns : isScalar item = false := by
      cases item <;> first | rfl | (rw [wfItem] at hwfitem; simp at hwfitem)
    have hpf : isPartItem item = false := by simpa using hp
    rw [isPartItemCk_nonscalar item hns, hpf]

/-- Witness for the amended C4 at a one-part outline whose page carries
no `"pages"` key. -/
theorem flatten_outline_idem_witness :
    flatten_outline [PVal.dict [("title", PVal.str "B"), ("part", PVal.str "P")]] =
      .ok [PVal.dict [("title", PVal.str "B"), ("part", PVal.str "P")]] :=
  flatten_outline_idem
    [PVal.dict [("part", PVal.str "P"),
       ("pages", PVal.list [PVal.dict [("title", PVal.str "B")]])]]
    [PVal.dict [("title", PVal.str "B"), ("part", PVal.str "P")]]
    (by decide) (by decide) rfl

/-! ## Outline text theorems -/

/-- On an all-dict outline the entry loop succeeds and produces the
specified entries. -/
theorem outlineLines_ok :
    ∀ (outline : List PVal) (i : Nat), outline.all isDictVal = true →
      outlineLines i outline = .ok ((enumFrom i outline).map lineSpec) := by
  intro outline
  induction outline with
  | nil => intro i h; rfl
  | cons item rest ih =>
    intro i h
    rw [List.all_cons, Bool.and_eq_true] at h
    obtain ⟨hitem, hrest⟩ := h
    have hline : outlineLine i item = .ok (lineSpec (i, item)) := by
      cases item with
      | str s => simp [isDictVal] at hitem
      | list l => simp [isDictVal] at hitem
      | int n => simp [isDictVal] at hitem
      | bool b => simp [isDictVal] at hitem
      | null => simp [isDictVal] at hitem
      | dict d =>
        unfold lineSpec
        by_cases hp : isPartItem (.dict d) = true
        · rw [outlineLine_part i _ (by rw [isPartItemCk_nonscalar (.dict d) rfl, hp]), if_pos hp]
          have hpart : dictHasKey d "part" = true := by
            have hp2 := hp
            rw [isPartItem, Bool.and_eq_true] at hp2
            exact hp2.1
          obtain ⟨pv, hpv⟩ := dictFind_some_of_hasKey hpart
          rw [subscript_dict_ok hpv, exmap_ok]
          have hpval : partValOf (.dict d) = pv := by
            have e : partValOf (.dict d) = (dictFind d "part").getD (PVal.str "") := rfl
            rw [e, hpv]
            rfl
          rw [hpval]
        · have hpf : isPartItem (.dict d) = false := by simpa using hp
          rw [outlineLine_direct_dict i d (by rw [isPartItemCk_nonscalar (.dict d) rfl, hpf]),
            if_neg hp]
    rw [outlineLines, hline, exbind_ok, ih (i + 1) hrest, exbind_ok]
    rfl

/-- The enumeration preserves the outline's length. -/
theorem enumFrom_length : ∀ (outline : List PVal) (i : Nat),
    (enumFrom i outline).length = outline.length := by
  intro outline
  induction outline with
  | nil => intro i; rfl
  | cons item rest ih =>
    intro i
    rw [enumFrom, List.length_cons, List.length_cons, ih]

/-- C5 counterexample: a direct page whose `"title"` value is the empty
string renders as `"1. "`, not as the claimed fallback
`"1. Untitled"` — `dict.get('title', 'Untitled')` falls back only when
the key is absent, not when the stored title is empty. -/
theorem generate_outline_text_empty_title :
    generate_outline_text [PVal.dict [("title", PVal.str "")]] = .ok "1. " ∧
    ("1. " : String) ≠ "1. Untitled" :=
  ⟨rfl, by decide⟩

/-- C5 (amended): on an all-dict outline with N elements,
`generate_outline_text` succeeds with the newline-join of exactly N
entries numbered 1..N in input order, regardless of nesting depth inside
parts; a part-shaped element renders its part name, any other element
renders its title, with the literal `"Untitled"` substituted only when
the `"title"` key is absent (an empty stored title renders as the empty
string). -/
theorem generate_outline_text_spec (outline : List PVal)
    (h : outline.all isDictVal = true) :
    generate_outline_text outline =
      .ok (String.intercalate "\n" ((enumFrom 1 outline).map lineSpec)) ∧
    ((enumFrom 1 outline).map lineSpec).length = outline.length := by
  constructor
  · unfold generate_outline_text
    rw [outlineLines_ok outline 1 h, exmap_ok]
  · rw [List.length_map]
    exact enumFrom_length outline 1

/-- Witness for the amended C5 at a two-element outline: a direct page
and a part. -/
theorem generate_outline_text_spec_witness :
    generate_outline_text
        [PVal.dict [("title", PVal.str "A"), ("points", PVal.list [])],
         PVal.dict [("part", PVal.str "P1"),
           ("pages", PVal.list [PVal.dict [("title", PVal.str "B")]])]] =
      .ok (String.intercalate "\n" ((enumFrom 1
        [PVal.dict [("title", PVal.str "A"), ("points", PVal.list [])],
         PVal.dict [("part", PVal.str "P1"),
           ("pages", PVal.list [PVal.dict [("title", PVal.str "B")]])]]).map lineSpec)) ∧
    ((enumFrom 1
        [PVal.dict [("title", PVal.str "A"), ("points", PVal.list [])],
         PVal.dict [("part", PVal.str "P1"),
           ("pages", PVal.list [PVal.dict [("title", PVal.str "B")]])]]).map lineSpec).length =
      ([PVal.dict [("title", PVal.str "A"), ("points", PVal.list [])],
        PVal.dict [("part", PVal.str "P1"),
          ("pages", PVal.list [PVal.dict [("title", PVal.str "B")]])]] : List PVal).length :=
  generate_outline_text_spec
    [PVal.dict [("title", PVal.str "A"), ("points", PVal.list [])],
     PVal.dict [("part", PVal.str "P1"),
       ("pages", PVal.list [PVal.dict [("title", PVal.str "B")]])]] (by decide)

/-! ## Heap frame theorems -/

/-- Reading below the length of a cell list is unaffected by appended
cells. -/
theorem cellsGet_append :
    ∀ (cs extra : List (List (String × PVal))) (a : Nat), a < cs.length →
      cellsGet (cs ++ extra) a = cellsGet cs a := by
  intro cs
  induction cs with
  | nil => intro extra a ha; simp at ha
  | cons c rest ih =>
    intro extra a ha
    cases a with
    | zero => rfl
    | succ n =>
      rw [List.cons_append, cellsGet, cellsGet]
      exact ih extra n (by simpa using ha)

/-- Storing at one address leaves every other address unchanged. -/
theorem cellsGet_cellsSet_ne :
    ∀ (cs : List (List (String × PVal))) (b a : Nat) (d : List (String × PVal)), a ≠ b →
      cellsGet (cellsSet cs b d) a = cellsGet cs a := by
  intro cs
  induction cs with
  | nil => intro b a d _; cases b <;> rfl
  | cons c rest ih =>
    intro b a d hne
    cases b with
    | zero =>
      cases a with
      | zero => exact absurd rfl hne
      | succ n => rfl
    | succ m =>
      cases a with
      | zero => rfl
      | succ n =>
        rw [cellsSet, cellsGet, cellsGet]
        exact ih m n d (by omega)

/-- Storing never changes the number of cells. -/
theorem cellsSet_length :
    ∀ (cs : List (List (String × PVal))) (b : Nat) (d : List (String × PVal)),
      (cellsSet cs b d).length = cs.length := by
  intro cs
  induction cs with
  | nil => intro b d; cases b <;> rfl
  | cons c rest ih =>
    intro b d
    cases b with
    | zero => rfl
    | succ m =>
      rw [cellsSet, List.length_cons, List.length_cons, ih]

/-- The copy-on-annotate loop only grows the heap. -/
theorem expandPagesHeap_length :
    ∀ (addrs : List Nat) (h : Heap) (pv : PVal),
      h.cells.length ≤ (expandPagesHeap h pv addrs).1.cells.length := by
  intro addrs
  induction addrs with
  | nil => intro h pv; exact Nat.le_refl _
  | cons a rest ih =>
    intro h pv
    rw [expandPagesHeap]
    dsimp only [Heap.alloc]
    refine Nat.le_trans ?_ (ih _ pv)
    show h.cells.length ≤ (cellsSet (h.cells ++ [h.get a]) h.cells.length _).length
    rw [cellsSet_length, List.length_append]
    omega

/-- The copy-on-annotate loop of one part never changes any cell that
was already allocated: the `"part"` annotation is written only to the
fresh copies. -/
theorem expandPagesHeap_frame :
    ∀ (addrs : List Nat) (h : Heap) (pv : PVal) (a : Nat), a < h.cells.length →
      (expandPagesHeap h pv addrs).1.get a = h.get a := by
  intro addrs
  induction addrs with
  | nil => intro h pv a _; rfl
  | cons b rest ih =>
    intro h pv a ha
    rw [expandPagesHeap]
    dsimp only [Heap.alloc]
    have hstep : ∀ d2,
        (Heap.store ⟨h.cells ++ [h.get b]⟩ h.cells.length d2).get a = h.get a := by
      intro d2
      show cellsGet (cellsSet (h.cells ++ [h.get b]) h.cells.length d2) a = cellsGet h.cells a
      rw [cellsGet_cellsSet_ne _ _ _ _ (by omega), cellsGet_append _ _ _ ha]
    have hlen : a < (Heap.store ⟨h.cells ++ [h.get b]⟩ h.cells.length
        (dictSet (h.get b) "part" pv)).cells.length := by
      show a < (cellsSet (h.cells ++ [h.get b]) h.cells.length _).length
      rw [cellsSet_length, List.length_append]
      omega
    rw [ih _ pv a hlen]
    exact hstep (dictSet (h.get b) "part" pv)

/-- C6: `flatten_outline` never mutates its input: running the
heap-level flatten loop leaves every previously allocated page record
unchanged — the `"part"` annotation is written only to the fresh shallow
copy made by `page.copy()`, never to the original page cell. -/
theorem flattenHeap_frame :
    ∀ (items : List HItem) (h : Heap) (a : Nat), a < h.cells.length →
      (flattenHeap h items).1.get a = h.get a := by
  intro items
  induction items with
  | nil => intro h a _; rfl
  | cons item rest ih =>
    intro h a ha
    cases item with
    | direct v =>
      rw [flattenHeap]
      exact ih h a ha
    | part pv addrs =>
      rw [flattenHeap]
      have hlen : a < (expandPagesHeap h pv addrs).1.cells.length :=
        Nat.lt_of_lt_of_le ha (expandPagesHeap_length addrs h pv)
      rw [ih _ a hlen]
      exact expandPagesHeap_frame addrs h pv a ha

/-- Witness for C6: a one-cell heap holding a page record, flattened
through a part that references it; the original cell is unchanged. -/
theorem flattenHeap_frame_witness :
    (flattenHeap ⟨[[("title", PVal.str "A")]]⟩ [HItem.part (PVal.str "P") [0]]).1.get 0 =
      (Heap.mk [[("title", PVal.str "A")]]).get 0 :=
  flattenHeap_frame [HItem.part (PVal.str "P") [0]] ⟨[[("title", PVal.str "A")]]⟩ 0 (by decide)

/-! ## Markdown extractor theorems -/

/-- A list starts with any of its own prefixes. -/
theorem listStartsWith_append : ∀ (pat t : List Char), listStartsWith pat (pat ++ t) = true := by
  intro pat
  induction pat with
  | nil => intro t; rfl
  | cons p ps ih =>
    intro t
    rw [List.cons_append, listStartsWith, Bool.and_eq_true]
    exact ⟨by simp, ih t⟩

/-- A successful prefix test exposes the tail. -/
theorem listStartsWith_exists : ∀ {pat l : List Char},
    listStartsWith pat l = true → ∃ t, l = pat ++ t := by
  intro pat
  induction pat with
  | nil => intro l _; exact ⟨l, rfl⟩
  | cons p ps ih =>
    intro l h
    cases l with
    | nil => simp [listStartsWith] at h
    | cons c cs =>
      rw [listStartsWith, Bool.and_eq_true] at h
      obtain ⟨hpc, hrest⟩ := h
      obtain ⟨t, ht⟩ := ih hrest
      have hpe : p = c := by simpa [beq_iff_eq] using hpc
      exact ⟨t, by rw [List.cons_append, ← ht, hpe]⟩

/-- Stripping a list that extends a fully non-whitespace, nonempty
pattern keeps the pattern as a prefix. -/
theorem pyStripChars_append_keeps (pat t : List Char) (hne : pat ≠ [])
    (hall : pat.all (fun c => !pyIsSpace c) = true) :
    ∃ r, pyStripChars (pat ++ t) = pat ++ r := by
  obtain ⟨c, pat2, rfl⟩ := List.exists_cons_of_ne_nil hne
  have hc : pyIsSpace c = false := by
    rw [List.all_cons, Bool.and_eq_true] at hall
    simpa using hall.1
  have h1 : ((c :: pat2) ++ t).dropWhile pyIsSpace = (c :: pat2) ++ t := by
    rw [List.cons_append, List.dropWhile_cons, hc]
    simp
  have hrevne : (c :: pat2).reverse ≠ [] := by simp
  obtain ⟨d, rs, hdr⟩ := List.exists_cons_of_ne_nil hrevne
  have hd : pyIsSpace d = false := by
    have hmem : d ∈ (c :: pat2).reverse := by rw [hdr]; simp
    rw [List.mem_reverse] at hmem
    rw [List.all_eq_true] at hall
    simpa using hall d hmem
  unfold pyStripChars
  rw [h1, List.reverse_append, hdr, List.dropWhile_append]
  by_cases he : ((t.reverse).dropWhile pyIsSpace).isEmpty = true
  · rw [if_pos he]
    rw [List.dropWhile_cons, hd]
    refine ⟨[], ?_⟩
    rw [if_neg (by simp), ← hdr, List.reverse_reverse, List.append_nil]
  · rw [if_neg he]
    refine ⟨(t.reverse.dropWhile pyIsSpace).reverse, ?_⟩
    rw [List.reverse_append, ← hdr, List.reverse_reverse]

/-- Stripping preserves a nonempty all-non-whitespace prefix such as a
URL scheme. -/
theorem pyStrip_startsWith (pat l : List Char) (hne : pat ≠ [])
    (hall : pat.all (fun c => !pyIsSpace c) = true)
    (h : listStartsWith pat l = true) :
    listStartsWith pat (pyStripChars l) = true := by
  obtain ⟨t, rfl⟩ := listStartsWith_exists h
  obtain ⟨r, hr⟩ := pyStripChars_append_keeps pat t hne hall
  rw [hr]
  exact listStartsWith_append pat r

/-- C8: `extract_image_urls_from_markdown` returns only captures that
begin with `http://` or `https://` (so never empty strings); the empty
input yields the empty list; on the specification's own example the
exact output is returned, in left-to-right match order with the
non-URL capture dropped; duplicates are preserved; and a capture is
whitespace-trimmed in the output. -/
theorem extract_image_urls_spec :
    (∀ (text u : String), u ∈ extract_image_urls_from_markdown text →
      listStartsWith "http://".data u.data = true ∨
        listStartsWith "https://".data u.data = true) ∧
    extract_image_urls_from_markdown "" = [] ∧
    extract_image_urls_from_markdown
        "![](https://x.com/a.png) text ![alt](not-a-url) ![](http://y.com/b.jpg)" =
      ["https://x.com/a.png", "http://y.com/b.jpg"] ∧
    extract_image_urls_from_markdown "![](http://a.b) ![](http://a.b)" =
      ["http://a.b", "http://a.b"] ∧
    extract_image_urls_from_markdown "![](http://a.b )" = ["http://a.b"] := by
  refine ⟨?_, by decide, by decide, by decide, by decide⟩
  intro text u hu
  unfold extract_image_urls_from_markdown at hu
  by_cases ht : text = ""
  · rw [if_pos ht] at hu
    simp at hu
  · rw [if_neg ht] at hu
    rw [List.mem_map] at hu
    obtain ⟨cap, hcapmem, hcap⟩ := hu
    rw [List.mem_filter] at hcapmem
    obtain ⟨_, hkeep⟩ := hcapmem
    rw [urlKeep, Bool.and_eq_true] at hkeep
    obtain ⟨_, hscheme⟩ := hkeep
    rw [Bool.or_eq_true] at hscheme
    have hdata : u.data = pyStripChars cap := by rw [← hcap]
    rcases hscheme with hs | hs
    · left
      rw [hdata]
      exact pyStrip_startsWith _ _ (by decide) (by decide) hs
    · right
      rw [hdata]
      exact pyStrip_startsWith _ _ (by decide) (by decide) hs

/-- Witness for C8: the universally quantified conjunct applied to the
trailing-whitespace example and its output element. -/
theorem extract_image_urls_spec_witness :
    listStartsWith "http://".data ("http://a.b" : String).data = true ∨
      listStartsWith "https://".data ("http://a.b" : String).data = true :=
  extract_image_urls_spec.1 "![](http://a.b )" "http://a.b" (by decide)
